import Mathlib

/-!
Verification of the Fibonacci/factorial calculators.

The definitions below are a shallow embedding of `src/fibonacci.py`
(class `FibonacciGenerator`) and `src/factorial.py`.  Python integers are
modelled as `Int` at validation boundaries and `Nat` once non-negativity
is established; `raise` is modelled with `Except`; the instance-owned
memoisation dictionary is an association list threaded explicitly.
-/

namespace ScaffoldWS

/-- Error messages raised by the code, verbatim from `fibonacci.py`
(quotes around the method name are written with `\x27`). -/
def negFibMsg : String := "Fibonacci sequence is not defined for negative numbers"

def negCountMsg : String := "Number of terms cannot be negative"

def negMaxCountMsg : String := "Maximum count cannot be negative"

def slowMsg : String :=
  "Recursive method is too slow for n > 35. Use \x27iterative\x27, \x27memoized\x27, or \x27generator\x27 instead."

def invalidMethodMsg (method : String) : String :=
  "Invalid method \x27" ++ method ++ "\x27. Use \x27iterative\x27, \x27recursive\x27, \x27memoized\x27, or \x27generator\x27"

/-- Does `p` start the character list `s`? -/
def startsWithChars : List Char → List Char → Bool
  | [], _ => true
  | _ :: _, [] => false
  | p :: ps, c :: cs => p = c && startsWithChars ps cs

/-- Does the pattern occur somewhere in the character list? -/
def occursInChars (pat : List Char) : List Char → Bool
  | [] => startsWithChars pat []
  | c :: rest => startsWithChars pat (c :: rest) || occursInChars pat rest

/-- Substring test used to interpret the spec phrases
"mentions negative" / "mentions Invalid method". -/
def containsStr (s pat : String) : Bool :=
  occursInChars pat.data s.data

/-- Python `str.lower()`: lowercase every character (the method names in
play are ASCII). -/
def strLower (s : String) : String :=
  String.mk (s.data.map Char.toLower)

/-- The loop body of `FibonacciGenerator.iterative`: advance the pair
`(a, b)` to `(b, a + b)`, `k` times. -/
def iterLoop : Nat → Nat × Nat → Nat × Nat
  | 0, p => p
  | k + 1, (a, b) => iterLoop k (b, a + b)

/-- `FibonacciGenerator.iterative` after the negativity check: return `n`
for `n ≤ 1`, otherwise run the pair-advancing loop `range(2, n+1)`,
i.e. `n - 1` times, from `(0, 1)` and return the second component. -/
def fibIterNat (n : Nat) : Nat :=
  if n ≤ 1 then n
  else (iterLoop (n - 1) (0, 1)).2

/-- `FibonacciGenerator.iterative`, with the negativity check. -/
def iterative (n : Int) : Except String Int :=
  if n < 0 then .error negFibMsg
  else .ok (fibIterNat n.toNat)

/-- `FibonacciGenerator.recursive` after the negativity check: `n` for
`n ≤ 1`, else the sum of the two preceding recursive calls. -/
def fibRecNat : Nat → Nat
  | 0 => 0
  | 1 => 1
  | n + 2 => fibRecNat (n + 1) + fibRecNat n

/-- `FibonacciGenerator.recursive`, with the negativity check. -/
def recursive (n : Int) : Except String Int :=
  if n < 0 then .error negFibMsg
  else .ok (fibRecNat n.toNat)

/-- The memoisation dictionary `_memo_cache`: an association list of
index/value pairs (a Python `dict` keyed by `int`). -/
abbrev MemoCache := List (Nat × Nat)

/-- The seed cache `{0: 0, 1: 1}` installed by `__init__` and by
`clear_cache`. -/
def initCache : MemoCache := [(0, 0), (1, 1)]

/-- Dictionary lookup `n in cache` / `cache[n]`. -/
def cacheFind : MemoCache → Nat → Option Nat
  | [], _ => none
  | (k, v) :: rest, n => if k = n then some v else cacheFind rest n

/-- Dictionary assignment `cache[n] = v`: overwrite the entry with key `n`
if present, otherwise append a new entry. -/
def cacheInsert : MemoCache → Nat → Nat → MemoCache
  | [], n, v => [(n, v)]
  | (k, w) :: rest, n, v =>
    if k = n then (n, v) :: rest else (k, w) :: cacheInsert rest n v

/-- `FibonacciGenerator.memoized_recursive` after the negativity check,
with the cache threaded explicitly.  A cache hit returns immediately;
otherwise the two recursive calls run left to right (each seeing the
cache as mutated by the previous one), the sum is stored at `n`, and
returned.  At `n = 0` or `n = 1` a cache miss recurses to a negative
index, so the Python code raises the negativity error there. -/
def memoRecNat : Nat → MemoCache → Except String (Nat × MemoCache)
  | 0, c =>
    match cacheFind c 0 with
    | some v => .ok (v, c)
    | none => .error negFibMsg
  | 1, c =>
    match cacheFind c 1 with
    | some v => .ok (v, c)
    | none => .error negFibMsg
  | m + 2, c =>
    match cacheFind c (m + 2) with
    | some v => .ok (v, c)
    | none =>
      match memoRecNat (m + 1) c with
      | .error e => .error e
      | .ok (v1, c1) =>
        match memoRecNat m c1 with
        | .error e => .error e
        | .ok (v2, c2) => .ok (v1 + v2, cacheInsert c2 (m + 2) (v1 + v2))

/-- `FibonacciGenerator.memoized_recursive`, with the negativity check. -/
def memoized_recursive (n : Int) (c : MemoCache) :
    Except String (Nat × MemoCache) :=
  if n < 0 then .error negFibMsg
  else memoRecNat n.toNat c

/-- The yield loop of `FibonacciGenerator.sequence_generator`: from state
`(a, b)`, yield `a` and advance to `(b, a + b)`, `k` times. -/
def genLoop : Nat → Nat × Nat → List Nat
  | 0, _ => []
  | k + 1, (a, b) => a :: genLoop k (b, a + b)

/-- `FibonacciGenerator.sequence_generator` with a (non-`None`) bound:
validate the bound, then yield that many values from `(0, 1)`.
`list(self.sequence_generator(n))` materialises the yields. -/
def sequence_generator (maxCount : Int) : Except String (List Nat) :=
  if maxCount < 0 then .error negMaxCountMsg
  else .ok (genLoop maxCount.toNat (0, 1))

/-- The generator state of the unbounded `sequence_generator()` after `i`
values have been yielded: `(0, 1)` initially, advanced by the same
`(a, b) ← (b, a + b)` step at every yield. -/
def genState : Nat → Nat × Nat
  | 0 => (0, 1)
  | i + 1 => ((genState i).2, (genState i).1 + (genState i).2)

/-- The `i`-th value yielded by the unbounded generator: the first
component of its state at yield `i`. -/
def genNth (i : Nat) : Nat := (genState i).1

/-- One iteration of the `for i in range(n)` loop in `get_sequence` for
the three single-value methods: `iterative` appends `iterative(i)`;
`recursive` refuses `i > 35` with the slowness error and otherwise
appends `recursive(i)`; `memoized` appends `memoized_recursive(i)`,
growing the cache. -/
def seqStep (method : String) (i : Nat) (c : MemoCache) :
    Except String (Nat × MemoCache) :=
  if method = "iterative" then .ok (fibIterNat i, c)
  else if method = "recursive" then
    if i > 35 then .error slowMsg
    else .ok (fibRecNat i, c)
  else
    memoRecNat i c

/-- The `for i in range(n)` loop of `get_sequence`, started at index `i`
with `k` iterations left, accumulating the list front-to-back. -/
def buildSeq (method : String) : Nat → Nat → MemoCache →
    Except String (List Nat × MemoCache)
  | 0, _, c => .ok ([], c)
  | k + 1, i, c =>
    match seqStep method i c with
    | .error e => .error e
    | .ok (v, c1) =>
      match buildSeq method k (i + 1) c1 with
      | .error e => .error e
      | .ok (rest, c2) => .ok (v :: rest, c2)

/-- `FibonacciGenerator.get_sequence`: reject a negative count, return
`[]` at count `0`, lowercase the method name, dispatch to the generator
or to the per-index loop, and reject unrecognised names. -/
def get_sequence (n : Int) (method : String) (c : MemoCache) :
    Except String (List Nat × MemoCache) :=
  if n < 0 then .error negCountMsg
  else if n = 0 then .ok ([], c)
  else
    let m := strLower method
    if m = "generator" then
      match sequence_generator n with
      | .ok l => .ok (l, c)
      | .error e => .error e
    else if m = "iterative" ∨ m = "recursive" ∨ m = "memoized" then
      buildSeq m n.toNat 0 c
    else
      .error (invalidMethodMsg m)

/-- `FibonacciGenerator.clear_cache`: reset the cache to the seed. -/
def clear_cache (_c : MemoCache) : MemoCache := initCache

/-- The public operations of a `FibonacciGenerator` instance, for stating
how each affects the instance's cache. -/
inductive Op where
  | iterCall (n : Int)
  | recCall (n : Int)
  | memoCall (n : Int)
  | genCall (maxCount : Int)
  | seqCall (n : Int) (method : String)
  | clearCall

/-- The cache after running one operation: `iterative`, `recursive` and
`sequence_generator` never touch `_memo_cache` in the source, so the
cache passes through; `memoized_recursive` and `get_sequence` yield the
threaded cache on success; `clear_cache` reinstalls the seed. -/
def applyOp (c : MemoCache) : Op → MemoCache
  | .iterCall _ => c
  | .recCall _ => c
  | .genCall _ => c
  | .clearCall => initCache
  | .memoCall n =>
    match memoized_recursive n c with
    | .ok (_, c1) => c1
    | .error _ => c
  | .seqCall n m =>
    match get_sequence n m c with
    | .ok (_, c1) => c1
    | .error _ => c

/-- The cache of a freshly constructed generator after a sequence of
operations. -/
def runOps (ops : List Op) : MemoCache := ops.foldl applyOp initCache

/-- A well-formed cache: the two seed entries are present and every entry
holds the Fibonacci value of its key. -/
def GoodCache (c : MemoCache) : Prop :=
  cacheFind c 0 = some 0 ∧ cacheFind c 1 = some 1 ∧
    ∀ p ∈ c, p.2 = fibRecNat p.1

instance (c : MemoCache) : Decidable (GoodCache c) := by
  unfold GoodCache; infer_instance

/-! Factorial (`src/factorial.py`).  The `isinstance(n, int)` check is
modelled by an input type with a non-integer constructor, and the two
Python exception classes by an error type with two constructors. -/

/-- An argument passed to the factorial functions: a Python `int`, or any
value of another type. -/
inductive FactInput where
  | intVal : Int → FactInput
  | nonInt : FactInput

/-- The exceptions raised by `factorial_iterative` / `factorial_recursive`:
`TypeError` for non-integer input, `ValueError` for negative input. -/
inductive PyError where
  | typeError (msg : String)
  | valueError (msg : String)
deriving DecidableEq

def typeErrMsg : String := "Input must be an integer"

def negFactMsg : String := "Factorial is not defined for negative numbers"

/-- The loop of `factorial_iterative` after validation: `1` for `n ≤ 1`,
otherwise the running product `result *= i` over `i in range(2, n+1)`. -/
def factIterNat (n : Nat) : Nat :=
  if n ≤ 1 then 1
  else (List.range' 2 (n - 1)).foldl (fun result i => result * i) 1

/-- `factorial_iterative`: type check, negativity check, then the loop. -/
def factorial_iterative : FactInput → Except PyError Nat
  | .nonInt => .error (.typeError typeErrMsg)
  | .intVal n =>
    if n < 0 then .error (.valueError negFactMsg)
    else .ok (factIterNat n.toNat)

/-- The recursion of `factorial_recursive` after validation: `1` for
`n ≤ 1`, otherwise `n * factorial_recursive (n - 1)`. -/
def factRecNat : Nat → Nat
  | 0 => 1
  | 1 => 1
  | n + 2 => (n + 2) * factRecNat (n + 1)

/-- `factorial_recursive`: type check, negativity check, then recursion. -/
def factorial_recursive : FactInput → Except PyError Nat
  | .nonInt => .error (.typeError typeErrMsg)
  | .intVal n =>
    if n < 0 then .error (.valueError negFactMsg)
    else .ok (factRecNat n.toNat)

/-! ### The iterative loop computes the recursive Fibonacci function -/

lemma fibRecNat_add_two (n : Nat) :
    fibRecNat (n + 2) = fibRecNat (n + 1) + fibRecNat n := rfl

lemma iterLoop_succ (k a b : Nat) :
    iterLoop (k + 1) (a, b) = iterLoop k (b, a + b) := rfl

lemma iterLoop_fib (k : Nat) : ∀ j : Nat,
    iterLoop k (fibRecNat j, fibRecNat (j + 1)) =
      (fibRecNat (j + k), fibRecNat (j + k + 1)) := by
  induction k with
  | zero => intro j; simp [iterLoop]
  | succ k ih =>
    intro j
    rw [iterLoop_succ]
    have h : fibRecNat j + fibRecNat (j + 1) = fibRecNat (j + 1 + 1) := by
      rw [fibRecNat_add_two]; omega
    rw [h, ih (j + 1)]
    have h1 : j + 1 + k = j + (k + 1) := by omega
    rw [h1]

lemma fibIterNat_eq : ∀ n : Nat, fibIterNat n = fibRecNat n := by
  intro n
  match n with
  | 0 => rfl
  | 1 => rfl
  | m + 2 =>
    show fibIterNat (m + 2) = fibRecNat (m + 2)
    unfold fibIterNat
    rw [if_neg (by omega)]
    have h : iterLoop (m + 2 - 1) (0, 1) =
        (fibRecNat (0 + (m + 1)), fibRecNat (0 + (m + 1) + 1)) :=
      iterLoop_fib (m + 1) 0
    rw [h]
    simp

/-! ### The generator loop yields the Fibonacci sequence -/

lemma genLoop_fib (k : Nat) : ∀ j : Nat,
    genLoop k (fibRecNat j, fibRecNat (j + 1)) =
      (List.range' j k).map fibRecNat := by
  induction k with
  | zero => intro j; simp [genLoop]
  | succ k ih =>
    intro j
    show fibRecNat j :: genLoop k (fibRecNat (j + 1), fibRecNat j + fibRecNat (j + 1)) = _
    have h : fibRecNat j + fibRecNat (j + 1) = fibRecNat (j + 1 + 1) := by
      rw [fibRecNat_add_two]; omega
    rw [h, ih (j + 1), List.range'_succ, List.map_cons]

lemma genLoop_zero_one (k : Nat) :
    genLoop k (0, 1) = (List.range k).map fibRecNat := by
  have h := genLoop_fib k 0
  simpa [List.range_eq_range'] using h

lemma genState_eq (i : Nat) :
    genState i = (fibRecNat i, fibRecNat (i + 1)) := by
  induction i with
  | zero => rfl
  | succ i ih =>
    show ((genState i).2, (genState i).1 + (genState i).2) = _
    rw [ih]
    have h : fibRecNat i + fibRecNat (i + 1) = fibRecNat (i + 1 + 1) := by
      rw [fibRecNat_add_two]; omega
    rw [h]

lemma genNth_eq (i : Nat) : genNth i = fibRecNat i := by
  unfold genNth; rw [genState_eq]

/-! ### Cache lemmas -/

lemma cacheFind_mem : ∀ (c : MemoCache) (i v : Nat),
    cacheFind c i = some v → (i, v) ∈ c := by
  intro c
  induction c with
  | nil => intro i v h; simp [cacheFind] at h
  | cons p rest ih =>
    intro i v h
    obtain ⟨k, w⟩ := p
    by_cases hk : k = i
    · subst hk
      rw [cacheFind, if_pos rfl] at h
      injection h with h
      subst h
      exact List.mem_cons_self _ _
    · rw [cacheFind, if_neg hk] at h
      exact List.mem_cons_of_mem _ (ih i v h)

lemma goodCache_find {c : MemoCache} (hc : GoodCache c) {i v : Nat}
    (h : cacheFind c i = some v) : v = fibRecNat i :=
  hc.2.2 (i, v) (cacheFind_mem c i v h)

lemma cacheFind_insert_self : ∀ (c : MemoCache) (k v : Nat),
    cacheFind (cacheInsert c k v) k = some v := by
  intro c
  induction c with
  | nil => intro k v; simp [cacheInsert, cacheFind]
  | cons p rest ih =>
    intro k v
    obtain ⟨a, w⟩ := p
    by_cases ha : a = k
    · rw [cacheInsert, if_pos ha, cacheFind, if_pos rfl]
    · rw [cacheInsert, if_neg ha, cacheFind, if_neg ha]
      exact ih k v

lemma cacheFind_insert_ne : ∀ (c : MemoCache) (k v i : Nat), i ≠ k →
    cacheFind (cacheInsert c k v) i = cacheFind c i := by
  intro c
  induction c with
  | nil =>
    intro k v i hik
    simp [cacheInsert, cacheFind, Ne.symm hik]
  | cons p rest ih =>
    intro k v i hik
    obtain ⟨a, w⟩ := p
    by_cases ha : a = k
    · subst ha
      rw [cacheInsert, if_pos rfl, cacheFind, if_neg (fun h => hik h.symm),
        cacheFind, if_neg (fun h => hik h.symm)]
    · rw [cacheInsert, if_neg ha, cacheFind, cacheFind]
      by_cases hai : a = i
      · rw [if_pos hai, if_pos hai]
      · rw [if_neg hai, if_neg hai]
        exact ih k v i hik

lemma mem_cacheInsert : ∀ (c : MemoCache) (k v : Nat) (p : Nat × Nat),
    p ∈ cacheInsert c k v → p = (k, v) ∨ p ∈ c := by
  intro c
  induction c with
  | nil =>
    intro k v p hp
    simp [cacheInsert] at hp
    exact Or.inl (by simp [hp])
  | cons q rest ih =>
    intro k v p hp
    obtain ⟨a, w⟩ := q
    by_cases ha : a = k
    · rw [cacheInsert, if_pos ha] at hp
      rcases List.mem_cons.1 hp with h | h
      · exact Or.inl h
      · exact Or.inr (List.mem_cons_of_mem _ h)
    · rw [cacheInsert, if_neg ha] at hp
      rcases List.mem_cons.1 hp with h | h
      · exact Or.inr (h ▸ List.mem_cons_self _ _)
      · rcases ih k v p h with h1 | h1
        · exact Or.inl h1
        · exact Or.inr (List.mem_cons_of_mem _ h1)

lemma goodCache_insert {c : MemoCache} (hc : GoodCache c) (k : Nat) :
    GoodCache (cacheInsert c k (fibRecNat k)) := by
  obtain ⟨h0, h1, hall⟩ := hc
  refine ⟨?_, ?_, ?_⟩
  · by_cases hk : k = 0
    · subst hk; exact cacheFind_insert_self c 0 (fibRecNat 0)
    · rw [cacheFind_insert_ne c k _ 0 (fun h => hk h.symm)]; exact h0
  · by_cases hk : k = 1
    · subst hk; exact cacheFind_insert_self c 1 (fibRecNat 1)
    · rw [cacheFind_insert_ne c k _ 1 (fun h => hk h.symm)]; exact h1
  · intro p hp
    rcases mem_cacheInsert c k _ p hp with h | h
    · subst h; rfl
    · exact hall p h

/-! ### Memoised recursion: correctness, cache growth, frame -/

lemma memoRec_ok : ∀ n c, GoodCache c →
    ∃ c', memoRecNat n c = .ok (fibRecNat n, c') ∧ GoodCache c' ∧
      ∀ i v, cacheFind c i = some v → cacheFind c' i = some v := by
  intro n
  induction n using Nat.strong_induction_on with
  | _ n ih =>
    intro c hc
    rcases n with _ | n1
    · exact ⟨c, by rw [memoRecNat, hc.1]; rfl, hc, fun i v h => h⟩
    rcases n1 with _ | m
    · exact ⟨c, by rw [memoRecNat, hc.2.1]; rfl, hc, fun i v h => h⟩
    cases hfind : cacheFind c (m + 2) with
    | some v =>
      refine ⟨c, ?_, hc, fun i w h => h⟩
      rw [memoRecNat, hfind, goodCache_find hc hfind]
    | none =>
      obtain ⟨c1, h1, hc1, ext1⟩ := ih (m + 1) (by omega) c hc
      obtain ⟨c2, h2, hc2, ext2⟩ := ih m (by omega) c1 hc1
      refine ⟨cacheInsert c2 (m + 2) (fibRecNat (m + 2)), ?_,
        goodCache_insert hc2 (m + 2), ?_⟩
      · simp only [memoRecNat, hfind, h1, h2, fibRecNat_add_two]
      · intro i v hv
        have hi : i ≠ m + 2 := by
          intro he; subst he; rw [hv] at hfind; cases hfind
        rw [cacheFind_insert_ne c2 (m + 2) _ i hi]
        exact ext2 i v (ext1 i v hv)

lemma memoRec_extends : ∀ n c v c', memoRecNat n c = .ok (v, c') →
    ∀ i w, cacheFind c i = some w → cacheFind c' i = some w := by
  intro n
  induction n using Nat.strong_induction_on with
  | _ n ih =>
    intro c v c' h i w hw
    rcases n with _ | n1
    · rw [memoRecNat] at h
      cases hfind : cacheFind c 0 with
      | some u =>
        rw [hfind] at h; injection h with h; injection h with hv hc'
        rw [← hc']; exact hw
      | none => rw [hfind] at h; cases h
    rcases n1 with _ | m
    · rw [memoRecNat] at h
      cases hfind : cacheFind c 1 with
      | some u =>
        rw [hfind] at h; injection h with h; injection h with hv hc'
        rw [← hc']; exact hw
      | none => rw [hfind] at h; cases h
    rw [memoRecNat] at h
    cases hfind : cacheFind c (m + 2) with
    | some u =>
      rw [hfind] at h; injection h with h; injection h with hv hc'
      rw [← hc']; exact hw
    | none =>
      rw [hfind] at h
      simp only [] at h
      cases h1 : memoRecNat (m + 1) c with
      | error e => rw [h1] at h; cases h
      | ok p1 =>
        obtain ⟨v1, c1⟩ := p1
        rw [h1] at h
        simp only [] at h
        cases h2 : memoRecNat m c1 with
        | error e => rw [h2] at h; cases h
        | ok p2 =>
          obtain ⟨v2, c2⟩ := p2
          rw [h2] at h
          simp only [] at h
          injection h with h
          injection h with hv hc'
          have hi : i ≠ m + 2 := by
            intro he; subst he; rw [hw] at hfind; cases hfind
          rw [← hc', cacheFind_insert_ne c2 (m + 2) _ i hi]
          exact ih m (by omega) c1 v2 c2 h2 i w (ih (m + 1) (by omega) c v1 c1 h1 i w hw)

/-! ### The sequence-assembly loop -/

lemma seqStep_iterative (i : Nat) (c : MemoCache) :
    seqStep "iterative" i c = .ok (fibRecNat i, c) := by
  rw [seqStep, if_pos rfl, fibIterNat_eq]

lemma seqStep_recursive_le (i : Nat) (c : MemoCache) (h : i ≤ 35) :
    seqStep "recursive" i c = .ok (fibRecNat i, c) := by
  rw [seqStep, if_neg (by decide), if_pos rfl, if_neg (by omega)]

lemma seqStep_recursive_gt (i : Nat) (c : MemoCache) (h : 35 < i) :
    seqStep "recursive" i c = .error slowMsg := by
  rw [seqStep, if_neg (by decide), if_pos rfl, if_pos (by omega)]

lemma seqStep_memoized (i : Nat) (c : MemoCache) :
    seqStep "memoized" i c = memoRecNat i c := by
  rw [seqStep, if_neg (by decide), if_neg (by decide)]

lemma buildSeq_iterative : ∀ (k i : Nat) (c : MemoCache),
    buildSeq "iterative" k i c = .ok ((List.range' i k).map fibRecNat, c) := by
  intro k
  induction k with
  | zero => intro i c; simp [buildSeq]
  | succ k ih =>
    intro i c
    simp only [buildSeq, seqStep_iterative, ih, List.range'_succ, List.map_cons]

lemma buildSeq_recursive_ok : ∀ (k i : Nat) (c : MemoCache), i + k ≤ 36 →
    buildSeq "recursive" k i c = .ok ((List.range' i k).map fibRecNat, c) := by
  intro k
  induction k with
  | zero => intro i c _; simp [buildSeq]
  | succ k ih =>
    intro i c h
    simp only [buildSeq, seqStep_recursive_le i c (by omega),
      ih (i + 1) c (by omega), List.range'_succ, List.map_cons]

lemma buildSeq_recursive_err : ∀ (k i : Nat) (c : MemoCache),
    i ≤ 36 → 36 < i + k → buildSeq "recursive" k i c = .error slowMsg := by
  intro k
  induction k with
  | zero => intro i c h1 h2; omega
  | succ k ih =>
    intro i c h1 h2
    by_cases hi : i ≤ 35
    · simp only [buildSeq, seqStep_recursive_le i c hi,
        ih (i + 1) c (by omega) (by omega)]
    · simp only [buildSeq, seqStep_recursive_gt i c (by omega)]

lemma buildSeq_memoized : ∀ (k i : Nat) (c : MemoCache), GoodCache c →
    ∃ c', buildSeq "memoized" k i c = .ok ((List.range' i k).map fibRecNat, c') ∧
      GoodCache c' ∧ ∀ a v, cacheFind c a = some v → cacheFind c' a = some v := by
  intro k
  induction k with
  | zero => intro i c hc; exact ⟨c, by simp [buildSeq], hc, fun a v h => h⟩
  | succ k ih =>
    intro i c hc
    obtain ⟨c1, h1, hc1, ext1⟩ := memoRec_ok i c hc
    obtain ⟨c2, h2, hc2, ext2⟩ := ih (i + 1) c1 hc1
    refine ⟨c2, ?_, hc2, fun a v h => ext2 a v (ext1 a v h)⟩
    simp only [buildSeq, seqStep_memoized, h1, h2, List.range'_succ, List.map_cons]

lemma seqStep_const (m : String) (hm : m = "iterative" ∨ m = "recursive")
    (i : Nat) (c : MemoCache) :
    seqStep m i c = .error slowMsg ∨ ∃ v, seqStep m i c = .ok (v, c) := by
  rcases hm with hm | hm
  · subst hm; exact Or.inr ⟨fibRecNat i, seqStep_iterative i c⟩
  · subst hm
    by_cases hi : i ≤ 35
    · exact Or.inr ⟨fibRecNat i, seqStep_recursive_le i c hi⟩
    · exact Or.inl (seqStep_recursive_gt i c (by omega))

lemma buildSeq_cache_const (m : String)
    (hm : m = "iterative" ∨ m = "recursive") :
    ∀ (k i : Nat) (c : MemoCache) (l : List Nat) (c' : MemoCache),
      buildSeq m k i c = .ok (l, c') → c' = c := by
  intro k
  induction k with
  | zero =>
    intro i c l c' h
    rw [buildSeq] at h
    injection h with h
    injection h with h1 h2
    exact h2.symm
  | succ k ih =>
    intro i c l c' h
    rw [buildSeq] at h
    rcases seqStep_const m hm i c with hs | ⟨v, hs⟩
    · rw [hs] at h; cases h
    · rw [hs] at h
      simp only [] at h
      cases hb : buildSeq m k (i + 1) c with
      | error e => rw [hb] at h; cases h
      | ok p =>
        obtain ⟨rest, c2⟩ := p
        rw [hb] at h
        injection h with h
        injection h with h1 h2
        rw [← h2]
        exact ih (i + 1) c rest c2 hb

/-! ### `get_sequence` dispatch -/

lemma sequence_generator_nat (k : Nat) :
    sequence_generator (k : Int) = .ok ((List.range k).map fibRecNat) := by
  unfold sequence_generator
  rw [if_neg (by omega), Int.toNat_natCast, genLoop_zero_one]

lemma get_sequence_pos (k : Nat) (hk : k ≠ 0) (m : String) (c : MemoCache) :
    get_sequence (k : Int) m c =
      if strLower m = "generator" then
        match sequence_generator (k : Int) with
        | .ok l => .ok (l, c)
        | .error e => .error e
      else if strLower m = "iterative" ∨ strLower m = "recursive" ∨
          strLower m = "memoized" then
        buildSeq (strLower m) k 0 c
      else .error (invalidMethodMsg (strLower m)) := by
  rw [get_sequence]
  rw [if_neg (by omega), if_neg (by exact_mod_cast hk)]
  rw [Int.toNat_natCast]

lemma get_sequence_valid (k : Nat) (m : String) (c : MemoCache)
    (hc : GoodCache c)
    (hm : strLower m = "iterative" ∨ strLower m = "recursive" ∨
      strLower m = "memoized" ∨ strLower m = "generator")
    (hrec : strLower m = "recursive" → k ≤ 36) :
    ∃ c', get_sequence (k : Int) m c = .ok ((List.range k).map fibRecNat, c') ∧
      GoodCache c' ∧ ∀ a v, cacheFind c a = some v → cacheFind c' a = some v := by
  by_cases hk : k = 0
  · subst hk
    exact ⟨c, by simp [get_sequence], hc, fun a v h => h⟩
  rw [get_sequence_pos k hk m c]
  rcases hm with hm | hm | hm | hm
  · refine ⟨c, ?_, hc, fun a v h => h⟩
    rw [if_neg (by rw [hm]; decide), if_pos (Or.inl hm), hm, buildSeq_iterative,
      ← List.range_eq_range']
  · refine ⟨c, ?_, hc, fun a v h => h⟩
    rw [if_neg (by rw [hm]; decide), if_pos (Or.inr (Or.inl hm)), hm,
      buildSeq_recursive_ok k 0 c (by have := hrec hm; omega),
      ← List.range_eq_range']
  · obtain ⟨c', h1, hc', ext⟩ := buildSeq_memoized k 0 c hc
    refine ⟨c', ?_, hc', ext⟩
    rw [if_neg (by rw [hm]; decide), if_pos (Or.inr (Or.inr hm)), hm, h1,
      ← List.range_eq_range']
  · refine ⟨c, ?_, hc, fun a v h => h⟩
    rw [if_pos hm, sequence_generator_nat]

/-! ### Cache goodness is preserved by every operation -/

lemma get_sequence_cache_good (n : Int) (m : String) (c : MemoCache)
    (hc : GoodCache c) (l : List Nat) (c' : MemoCache)
    (h : get_sequence n m c = .ok (l, c')) : GoodCache c' := by
  rw [get_sequence] at h
  by_cases hn : n < 0
  · rw [if_pos hn] at h; cases h
  rw [if_neg hn] at h
  by_cases hn0 : n = 0
  · rw [if_pos hn0] at h
    injection h with h; injection h with h1 h2
    rw [← h2]; exact hc
  rw [if_neg hn0] at h
  simp only [] at h
  by_cases hg : strLower m = "generator"
  · rw [if_pos hg] at h
    cases hsg : sequence_generator n with
    | error e => rw [hsg] at h; cases h
    | ok l2 =>
      rw [hsg] at h
      injection h with h; injection h with h1 h2
      rw [← h2]; exact hc
  rw [if_neg hg] at h
  by_cases hio : strLower m = "iterative" ∨ strLower m = "recursive" ∨
      strLower m = "memoized"
  · rw [if_pos hio] at h
    rcases hio with hio | hio | hio
    · rw [hio] at h
      rw [buildSeq_cache_const "iterative" (Or.inl rfl) n.toNat 0 c l c' h]
      exact hc
    · rw [hio] at h
      rw [buildSeq_cache_const "recursive" (Or.inr rfl) n.toNat 0 c l c' h]
      exact hc
    · rw [hio] at h
      obtain ⟨c'', h1, hc'', _⟩ := buildSeq_memoized n.toNat 0 c hc
      rw [h1] at h
      injection h with h; injection h with h1 h2
      rw [← h2]; exact hc''
  · rw [if_neg hio] at h; cases h

lemma get_sequence_cache_const (n : Int) (m : String) (c : MemoCache)
    (hm : strLower m = "iterative" ∨ strLower m = "recursive" ∨
      strLower m = "generator")
    (l : List Nat) (c' : MemoCache)
    (h : get_sequence n m c = .ok (l, c')) : c' = c := by
  rw [get_sequence] at h
  by_cases hn : n < 0
  · rw [if_pos hn] at h; cases h
  rw [if_neg hn] at h
  by_cases hn0 : n = 0
  · rw [if_pos hn0] at h
    injection h with h; injection h with h1 h2
    exact h2.symm
  rw [if_neg hn0] at h
  simp only [] at h
  by_cases hg : strLower m = "generator"
  · rw [if_pos hg] at h
    cases hsg : sequence_generator n with
    | error e => rw [hsg] at h; cases h
    | ok l2 =>
      rw [hsg] at h
      injection h with h; injection h with h1 h2
      exact h2.symm
  rw [if_neg hg] at h
  rcases hm with hm | hm | hm
  · rw [if_pos (Or.inl hm), hm] at h
    exact buildSeq_cache_const "iterative" (Or.inl rfl) n.toNat 0 c l c' h
  · rw [if_pos (Or.inr (Or.inl hm)), hm] at h
    exact buildSeq_cache_const "recursive" (Or.inr rfl) n.toNat 0 c l c' h
  · exact absurd hm hg

lemma goodCache_init : GoodCache initCache := by decide

lemma goodCache_applyOp (c : MemoCache) (hc : GoodCache c) (op : Op) :
    GoodCache (applyOp c op) := by
  cases op with
  | iterCall n => exact hc
  | recCall n => exact hc
  | genCall mc => exact hc
  | clearCall => exact goodCache_init
  | memoCall n =>
    cases hres : memoized_recursive n c with
    | error e => simp only [applyOp, hres]; exact hc
    | ok p =>
      obtain ⟨v, c1⟩ := p
      simp only [applyOp, hres]
      rw [memoized_recursive] at hres
      by_cases hn : n < 0
      · rw [if_pos hn] at hres; cases hres
      · rw [if_neg hn] at hres
        obtain ⟨c'', h1, hc'', _⟩ := memoRec_ok n.toNat c hc
        rw [h1] at hres
        injection hres with hres; injection hres with e1 e2
        rw [← e2]; exact hc''
  | seqCall n m =>
    cases hres : get_sequence n m c with
    | error e => simp only [applyOp, hres]; exact hc
    | ok p =>
      obtain ⟨l, c1⟩ := p
      simp only [applyOp, hres]
      exact get_sequence_cache_good n m c hc l c1 hres

lemma goodCache_foldl : ∀ (ops : List Op) (c : MemoCache), GoodCache c →
    GoodCache (ops.foldl applyOp c) := by
  intro ops
  induction ops with
  | nil => intro c hc; exact hc
  | cons op rest ih =>
    intro c hc
    exact ih (applyOp c op) (goodCache_applyOp c hc op)

lemma goodCache_runOps (ops : List Op) : GoodCache (runOps ops) :=
  goodCache_foldl ops initCache goodCache_init

/-! ### Factorial -/

lemma factRecNat_eq_factorial : ∀ n : Nat, factRecNat n = Nat.factorial n := by
  intro n
  induction n using Nat.strong_induction_on with
  | _ n ih =>
    rcases n with _ | n1
    · rfl
    rcases n1 with _ | m
    · rfl
    rw [factRecNat, ih (m + 1) (by omega)]
    rfl

lemma factIter_fold (k : Nat) :
    (List.range' 2 k).foldl (fun result i => result * i) 1 =
      Nat.factorial (k + 1) := by
  induction k with
  | zero => rfl
  | succ k ih =>
    rw [List.range'_1_concat, List.foldl_append, ih]
    show Nat.factorial (k + 1) * (2 + k) = Nat.factorial (k + 2)
    have h2 : 2 + k = k + 2 := by omega
    rw [h2, Nat.mul_comm]
    rfl

lemma factIterNat_eq_factorial : ∀ n : Nat, factIterNat n = Nat.factorial n := by
  intro n
  rcases n with _ | n1
  · rfl
  rcases n1 with _ | m
  · rfl
  rw [factIterNat, if_neg (by omega)]
  show (List.range' 2 (m + 1)).foldl (fun result i => result * i) 1 = _
  rw [factIter_fold]

/-! ### Claims -/

/-- C3: for every negative integer `n`, `iterative`, `recursive`,
`memoized_recursive` and `get_sequence` (with any method name) raise a
`FibonacciError` whose message mentions "negative", and never return a
computed result: the embedding returns the error before any computation. -/
theorem negative_rejected (n : Int) (hn : n < 0) (m : String) (c : MemoCache) :
    iterative n = .error negFibMsg ∧
    recursive n = .error negFibMsg ∧
    memoized_recursive n c = .error negFibMsg ∧
    get_sequence n m c = .error negCountMsg ∧
    containsStr negFibMsg "negative" = true ∧
    containsStr negCountMsg "negative" = true := by
  refine ⟨?_, ?_, ?_, ?_, by decide, by decide⟩
  · rw [iterative, if_pos hn]
  · rw [recursive, if_pos hn]
  · rw [memoized_recursive, if_pos hn]
  · rw [get_sequence, if_pos hn]

/-- Witness for C3 at `n = -1`, method `"iterative"`, the seed cache. -/
theorem negative_rejected_witness :
    (-1 : Int) < 0 ∧
    (iterative (-1) = .error negFibMsg ∧
     recursive (-1) = .error negFibMsg ∧
     memoized_recursive (-1) initCache = .error negFibMsg ∧
     get_sequence (-1) "iterative" initCache = .error negCountMsg ∧
     containsStr negFibMsg "negative" = true ∧
     containsStr negCountMsg "negative" = true) :=
  ⟨by decide, negative_rejected (-1) (by decide) "iterative" initCache⟩

/-- C10: at count `0`, `get_sequence` returns the empty list for every
method string — the zero-count check precedes method-name validation, so
even an unrecognised name raises no error. -/
theorem zero_count_skips_validation (m : String) (c : MemoCache) :
    get_sequence 0 m c = .ok ([], c) := by
  rw [get_sequence, if_neg (by omega), if_pos rfl]

/-- C5: assembling a sequence with the naive recursive strategy refuses
any count whose largest index exceeds the fixed threshold 35 (that is,
counts of 37 or more) with the slowness error, and succeeds for counts
whose indices stay at or below 35 (counts up to 36). -/
theorem recursive_threshold (k : Int) (h0 : 0 ≤ k) (c : MemoCache) :
    (37 ≤ k → get_sequence k "recursive" c = .error slowMsg) ∧
    (k ≤ 36 → get_sequence k "recursive" c = .ok (genLoop k.toNat (0, 1), c)) ∧
    containsStr slowMsg "too slow" = true := by
  have hl : strLower "recursive" = "recursive" := by decide
  refine ⟨?_, ?_, by decide⟩
  · intro h37
    have hk : k = ((k.toNat : Nat) : Int) := by omega
    rw [hk, get_sequence_pos k.toNat (by omega) _ c]
    rw [if_neg (by decide), if_pos (Or.inr (Or.inl hl)), hl]
    exact buildSeq_recursive_err k.toNat 0 c (by omega) (by omega)
  · intro h36
    by_cases hk0 : k = 0
    · subst hk0
      rw [get_sequence, if_neg (by omega), if_pos rfl]
      rfl
    · have hk : k = ((k.toNat : Nat) : Int) := by omega
      rw [hk, get_sequence_pos k.toNat (by omega) _ c]
      rw [if_neg (by decide), if_pos (Or.inr (Or.inl hl)), hl]
      rw [buildSeq_recursive_ok k.toNat 0 c (by omega), ← List.range_eq_range',
        ← genLoop_zero_one, Int.toNat_natCast]

/-- Witness for C5 at `k = 40` (raises) with the seed cache; the same
instance also covers the success bound at `k ≤ 36` vacuously. -/
theorem recursive_threshold_witness :
    (0 : Int) ≤ 40 ∧
    ((37 ≤ (40 : Int) →
        get_sequence 40 "recursive" initCache = .error slowMsg) ∧
     ((40 : Int) ≤ 36 →
        get_sequence 40 "recursive" initCache =
          .ok (genLoop (40 : Int).toNat (0, 1), initCache)) ∧
     containsStr slowMsg "too slow" = true) :=
  ⟨by decide, recursive_threshold 40 (by decide) initCache⟩

/-- C7: the lazy sequence producer bounded at `k` yields exactly the
first `k` Fibonacci values (starting `0, 1`, advancing by the running
sum); bounded at 5 it yields `[0, 1, 1, 2, 3]`; and the first `k` values
of the unbounded generator equal the bounded-at-`k` sequence. -/
theorem lazy_sequence_correct (k : Nat) :
    sequence_generator 5 = .ok [0, 1, 1, 2, 3] ∧
    sequence_generator (k : Int) = .ok (genLoop k (0, 1)) ∧
    genLoop k (0, 1) = (List.range k).map fibIterNat ∧
    (List.range k).map genNth = genLoop k (0, 1) := by
  have hIter : fibIterNat = fibRecNat := funext fibIterNat_eq
  have hNth : genNth = fibRecNat := funext genNth_eq
  refine ⟨rfl, ?_, ?_, ?_⟩
  · rw [sequence_generator, if_neg (by omega), Int.toNat_natCast]
  · rw [genLoop_zero_one, hIter]
  · rw [genLoop_zero_one, hNth]

/-- C8: both factorial strategies compute `n!` for every `n ≥ 0`, agree
with each other, return `1` at `0`, `120` at `5`, raise `ValueError` for
negative input and `TypeError` for non-integer input. -/
theorem factorial_correct (n : Nat) (mneg : Int) (hneg : mneg < 0) :
    factorial_iterative (.intVal (n : Int)) = .ok (Nat.factorial n) ∧
    factorial_recursive (.intVal (n : Int)) = .ok (Nat.factorial n) ∧
    factorial_iterative (.intVal 0) = .ok 1 ∧
    factorial_recursive (.intVal 0) = .ok 1 ∧
    factorial_iterative (.intVal 5) = .ok 120 ∧
    factorial_iterative (.intVal mneg) = .error (.valueError negFactMsg) ∧
    factorial_recursive (.intVal mneg) = .error (.valueError negFactMsg) ∧
    factorial_iterative .nonInt = .error (.typeError typeErrMsg) ∧
    factorial_recursive .nonInt = .error (.typeError typeErrMsg) := by
  refine ⟨?_, ?_, rfl, rfl, rfl, ?_, ?_, rfl, rfl⟩
  · rw [factorial_iterative, if_neg (by omega), Int.toNat_natCast,
      factIterNat_eq_factorial]
  · rw [factorial_recursive, if_neg (by omega), Int.toNat_natCast,
      factRecNat_eq_factorial]
  · rw [factorial_iterative, if_pos hneg]
  · rw [factorial_recursive, if_pos hneg]

/-- Witness for C8 at `n = 6` and negative input `-3`. -/
theorem factorial_correct_witness :
    (-3 : Int) < 0 ∧
    (factorial_iterative (.intVal ((6 : Nat) : Int)) = .ok (Nat.factorial 6) ∧
     factorial_recursive (.intVal ((6 : Nat) : Int)) = .ok (Nat.factorial 6) ∧
     factorial_iterative (.intVal 0) = .ok 1 ∧
     factorial_recursive (.intVal 0) = .ok 1 ∧
     factorial_iterative (.intVal 5) = .ok 120 ∧
     factorial_iterative (.intVal (-3)) = .error (.valueError negFactMsg) ∧
     factorial_recursive (.intVal (-3)) = .error (.valueError negFactMsg) ∧
     factorial_iterative .nonInt = .error (.typeError typeErrMsg) ∧
     factorial_recursive .nonInt = .error (.typeError typeErrMsg)) :=
  ⟨by decide, factorial_correct 6 (-3) (by decide)⟩

/-- C1: all Fibonacci strategies agree: for `0 ≤ n ≤ 30` the iterative,
naive recursive and memoized strategies return the same value, and for
every `k ≤ 20` the list returned by `get_sequence` is the same for all
four method names. -/
theorem strategies_agree (n : Int) (hn0 : 0 ≤ n) (hn30 : n ≤ 30)
    (c : MemoCache) (hc : GoodCache c) (k : Nat) (hk : k ≤ 20) (m : String)
    (hm : m = "iterative" ∨ m = "recursive" ∨ m = "memoized" ∨
      m = "generator") :
    iterative n = .ok (fibRecNat n.toNat) ∧
    recursive n = .ok (fibRecNat n.toNat) ∧
    (∃ c1, memoized_recursive n c = .ok (fibRecNat n.toNat, c1)) ∧
    (∃ c2, get_sequence (k : Int) m c = .ok (genLoop k (0, 1), c2)) := by
  have hlow : strLower m = "iterative" ∨ strLower m = "recursive" ∨
      strLower m = "memoized" ∨ strLower m = "generator" := by
    rcases hm with h | h | h | h <;> subst h
    · exact Or.inl (by decide)
    · exact Or.inr (Or.inl (by decide))
    · exact Or.inr (Or.inr (Or.inl (by decide)))
    · exact Or.inr (Or.inr (Or.inr (by decide)))
  refine ⟨?_, ?_, ?_, ?_⟩
  · rw [iterative, if_neg (by omega), fibIterNat_eq]
  · rw [recursive, if_neg (by omega)]
  · rw [memoized_recursive, if_neg (by omega)]
    obtain ⟨c1, h1, _, _⟩ := memoRec_ok n.toNat c hc
    exact ⟨c1, h1⟩
  · obtain ⟨c2, h2, _, _⟩ :=
      get_sequence_valid k m c hc hlow (fun _ => by omega)
    rw [genLoop_zero_one]
    exact ⟨c2, h2⟩

/-- Witness for C1 at `n = 30`, `k = 20`, method `"generator"`, the seed
cache. -/
theorem strategies_agree_witness :
    (0 : Int) ≤ 30 ∧ (30 : Int) ≤ 30 ∧ GoodCache initCache ∧
    (20 : Nat) ≤ 20 ∧
    (iterative 30 = .ok (fibRecNat (30 : Int).toNat) ∧
     recursive 30 = .ok (fibRecNat (30 : Int).toNat) ∧
     (∃ c1, memoized_recursive 30 initCache =
       .ok (fibRecNat (30 : Int).toNat, c1)) ∧
     (∃ c2, get_sequence ((20 : Nat) : Int) "generator" initCache =
       .ok (genLoop 20 (0, 1), c2))) :=
  ⟨by decide, by decide, goodCache_init, by decide,
   strategies_agree 30 (by decide) (by decide) initCache goodCache_init 20
     (by decide) "generator" (Or.inr (Or.inr (Or.inr rfl)))⟩

/-- C2: the iterative strategy is the reference Fibonacci function: it
returns `n` for `n ≤ 1`, its loop advances `(a, b)` to `(b, a + b)`, it
satisfies the Fibonacci recurrence, and `get_sequence` returns `[0]` at
count 1 and `[0, 1]` at count 2 for every valid method. -/
theorem iterative_reference (n a b : Nat) (c : MemoCache) (hc : GoodCache c)
    (m : String)
    (hm : m = "iterative" ∨ m = "recursive" ∨ m = "memoized" ∨
      m = "generator") :
    (n ≤ 1 → iterative (n : Int) = .ok (n : Int)) ∧
    iterLoop (n + 1) (a, b) = iterLoop n (b, a + b) ∧
    iterative ((n : Int) + 2) =
      .ok ((fibIterNat n + fibIterNat (n + 1) : Nat) : Int) ∧
    iterative (n : Int) = .ok ((fibIterNat n : Nat) : Int) ∧
    (∃ c1, get_sequence 1 m c = .ok ([0], c1)) ∧
    (∃ c2, get_sequence 2 m c = .ok ([0, 1], c2)) := by
  have hlow : strLower m = "iterative" ∨ strLower m = "recursive" ∨
      strLower m = "memoized" ∨ strLower m = "generator" := by
    rcases hm with h | h | h | h <;> subst h
    · exact Or.inl (by decide)
    · exact Or.inr (Or.inl (by decide))
    · exact Or.inr (Or.inr (Or.inl (by decide)))
    · exact Or.inr (Or.inr (Or.inr (by decide)))
  refine ⟨?_, rfl, ?_, ?_, ?_, ?_⟩
  · intro h1
    rw [iterative, if_neg (by omega), Int.toNat_natCast, fibIterNat,
      if_pos h1]
  · have hcast : ((n : Int) + 2) = (((n + 2 : Nat) : Nat) : Int) := by
      push_cast; ring
    rw [iterative, if_neg (by omega), hcast, Int.toNat_natCast]
    have hv : fibIterNat (n + 2) = fibIterNat n + fibIterNat (n + 1) := by
      rw [fibIterNat_eq, fibIterNat_eq, fibIterNat_eq, fibRecNat_add_two]
      omega
    rw [hv]
  · rw [iterative, if_neg (by omega), Int.toNat_natCast]
  · obtain ⟨c1, h1, _, _⟩ :=
      get_sequence_valid 1 m c hc hlow (fun _ => by omega)
    have he : (List.range 1).map fibRecNat = [0] := by decide
    rw [he] at h1
    exact ⟨c1, by exact_mod_cast h1⟩
  · obtain ⟨c2, h2, _, _⟩ :=
      get_sequence_valid 2 m c hc hlow (fun _ => by omega)
    have he : (List.range 2).map fibRecNat = [0, 1] := by decide
    rw [he] at h2
    exact ⟨c2, by exact_mod_cast h2⟩

/-- Witness for C2 at `n = 5`, loop state `(1, 2)`, method `"memoized"`,
the seed cache. -/
theorem iterative_reference_witness :
    GoodCache initCache ∧
    (((5 : Nat) ≤ 1 → iterative ((5 : Nat) : Int) = .ok ((5 : Nat) : Int)) ∧
     iterLoop (5 + 1) (1, 2) = iterLoop 5 (2, 1 + 2) ∧
     iterative (((5 : Nat) : Int) + 2) =
       .ok ((fibIterNat 5 + fibIterNat (5 + 1) : Nat) : Int) ∧
     iterative ((5 : Nat) : Int) = .ok ((fibIterNat 5 : Nat) : Int) ∧
     (∃ c1, get_sequence 1 "memoized" initCache = .ok ([0], c1)) ∧
     (∃ c2, get_sequence 2 "memoized" initCache = .ok ([0, 1], c2))) :=
  ⟨goodCache_init,
   iterative_reference 5 1 2 initCache goodCache_init "memoized"
     (Or.inr (Or.inr (Or.inl rfl)))⟩

/-- C4 counterexample: the claim quantifies over every count `k ≥ 0`, but
at count `0` an invalid method name is not rejected — `get_sequence(0,
"bogus")` returns the empty list instead of raising. -/
theorem invalid_method_zero_count_ok :
    get_sequence 0 "bogus" initCache = .ok ([], initCache) := rfl

/-- C4 (amended to counts `k ≥ 1`): `get_sequence` with a method name
that is not one of the four valid names (case-insensitively) raises the
domain error listing the valid choices; in particular `get_sequence(5,
"bogus")` raises an error mentioning "Invalid method". -/
theorem invalid_method_rejected (k : Int) (hk : 1 ≤ k) (m : String)
    (c : MemoCache)
    (hm : ¬ (strLower m = "iterative" ∨ strLower m = "recursive" ∨
      strLower m = "memoized" ∨ strLower m = "generator")) :
    get_sequence k m c = .error (invalidMethodMsg (strLower m)) ∧
    get_sequence 5 "bogus" initCache = .error (invalidMethodMsg "bogus") ∧
    containsStr (invalidMethodMsg "bogus") "Invalid method" = true := by
  push_neg at hm
  obtain ⟨h1, h2, h3, h4⟩ := hm
  refine ⟨?_, rfl, by decide⟩
  have hkk : k = ((k.toNat : Nat) : Int) := by omega
  rw [hkk, get_sequence_pos k.toNat (by omega) m c]
  rw [if_neg h4, if_neg (fun h => h.elim h1 (fun h' => h'.elim h2 h3))]

/-- Witness for C4 (amended) at `k = 5`, method `"bogus"`, the seed
cache. -/
theorem invalid_method_rejected_witness :
    (1 : Int) ≤ 5 ∧
    ¬ (strLower "bogus" = "iterative" ∨ strLower "bogus" = "recursive" ∨
      strLower "bogus" = "memoized" ∨ strLower "bogus" = "generator") ∧
    (get_sequence 5 "bogus" initCache =
       .error (invalidMethodMsg (strLower "bogus")) ∧
     get_sequence 5 "bogus" initCache = .error (invalidMethodMsg "bogus") ∧
     containsStr (invalidMethodMsg "bogus") "Invalid method" = true) :=
  ⟨by decide, by decide,
   invalid_method_rejected 5 (by decide) "bogus" initCache (by decide)⟩

/-- C6: a fresh generator's cache is exactly `{0: 0, 1: 1}`;
`clear_cache` resets it to exactly that; after any sequence of operations
every cached entry holds the iterative value at its index; and after
`memoized_recursive(20)` on a fresh generator the cache has at least 20
entries, each correct. -/
theorem cache_invariant (ops : List Op) (c : MemoCache) :
    initCache = [(0, 0), (1, 1)] ∧
    clear_cache c = [(0, 0), (1, 1)] ∧
    (∀ p ∈ runOps ops, p.2 = fibIterNat p.1) ∧
    20 ≤ (runOps [Op.memoCall 20]).length ∧
    (∀ p ∈ runOps [Op.memoCall 20], p.2 = fibIterNat p.1) := by
  refine ⟨rfl, rfl, ?_, by decide, by decide⟩
  intro p hp
  rw [fibIterNat_eq]
  exact (goodCache_runOps ops).2.2 p hp

/-- C9: `iterative`, `recursive`, `sequence_generator`, and
`get_sequence` with the `iterative`, `recursive` or `generator` methods
leave the cache unchanged; the memoized strategy only adds entries
(every existing entry survives unaltered); only `clear_cache` resets. -/
theorem frame_condition (n k mc : Int) (meth : String) (c : MemoCache)
    (hmeth : strLower meth = "iterative" ∨ strLower meth = "recursive" ∨
      strLower meth = "generator") :
    applyOp c (.iterCall n) = c ∧
    applyOp c (.recCall n) = c ∧
    applyOp c (.genCall mc) = c ∧
    applyOp c (.seqCall k meth) = c ∧
    (∀ i v, cacheFind c i = some v →
      cacheFind (applyOp c (.memoCall n)) i = some v) ∧
    applyOp c .clearCall = initCache := by
  refine ⟨rfl, rfl, rfl, ?_, ?_, rfl⟩
  · cases hres : get_sequence k meth c with
    | error e => simp only [applyOp, hres]
    | ok p =>
      obtain ⟨l, c1⟩ := p
      simp only [applyOp, hres]
      exact get_sequence_cache_const k meth c hmeth l c1 hres
  · intro i v hv
    cases hres : memoized_recursive n c with
    | error e => simp only [applyOp, hres]; exact hv
    | ok p =>
      obtain ⟨w, c1⟩ := p
      simp only [applyOp, hres]
      rw [memoized_recursive] at hres
      by_cases hn : n < 0
      · rw [if_pos hn] at hres; cases hres
      · rw [if_neg hn] at hres
        exact memoRec_extends n.toNat c w c1 hres i v hv

/-- Witness for C9 at `n = k = mc = 2`, method `"generator"`, the seed
cache. -/
theorem frame_condition_witness :
    (strLower "generator" = "iterative" ∨ strLower "generator" = "recursive" ∨
      strLower "generator" = "generator") ∧
    (applyOp initCache (.iterCall 2) = initCache ∧
     applyOp initCache (.recCall 2) = initCache ∧
     applyOp initCache (.genCall 2) = initCache ∧
     applyOp initCache (.seqCall 2 "generator") = initCache ∧
     (∀ i v, cacheFind initCache i = some v →
       cacheFind (applyOp initCache (.memoCall 2)) i = some v) ∧
     applyOp initCache .clearCall = initCache) :=
  ⟨by decide,
   frame_condition 2 2 2 "generator" initCache
     (Or.inr (Or.inr (by decide)))⟩

end ScaffoldWS
